import Mathlib

/-!
Verification of the LinkedIn scraping orchestrator in
src/Linkedin-scrapper/linkedin_scraper_puppeteer.py (with the schema lists
from src/Linkedin-scrapper/config.py), against its natural-language
specification.  Python dictionaries are embedded as insertion-ordered
association lists, JSON values as an inductive type, and each orchestrator
operation as a Lean function translated from the Python source.  External
effects (the Node.js child process, the clock, the file system) appear as
explicit parameters: the worker is an oracle from invocation to optional
JSON result, the clock is a timestamp string, and the target file is its
list of lines.
-/

set_option maxRecDepth 100000

namespace AeroLead

/-- JSON values as produced by the Node.js worker and handled by the
orchestrator.  Number literals keep their lexeme, mirroring the fact that
no claim depends on numeric arithmetic. -/
inductive JValue where
  | null : JValue
  | bool : Bool → JValue
  | num  : String → JValue
  | str  : String → JValue
  | list : List JValue → JValue
  | obj  : List (String × JValue) → JValue

/-- A Python dict (string keys), embedded as an insertion-ordered
association list with unique keys. -/
abbrev Dict := List (String × JValue)

/-- Python dict lookup d.get(k): first (hence only) binding of k. -/
def dictGet (d : Dict) (k : String) : Option JValue :=
  match d with
  | [] => none
  | (k', v) :: rest => if k' = k then some v else dictGet rest k

/-- Python d.get(k, default). -/
def dictGetD (d : Dict) (k : String) (dflt : JValue) : JValue :=
  (dictGet d k).getD dflt

/-- Python membership test: k in d. -/
def dictContains (d : Dict) (k : String) : Bool :=
  (dictGet d k).isSome

/-- Python dict assignment d[k] = v: update in place when the key exists
(keeping its position), append otherwise. -/
def dictSet (d : Dict) (k : String) (v : JValue) : Dict :=
  match d with
  | [] => [(k, v)]
  | (k', v') :: rest => if k' = k then (k, v) :: rest else (k', v') :: dictSet rest k v

/-- The key list of a dict, in insertion order. -/
def dictKeys (d : Dict) : List String :=
  d.map Prod.fst

/-- Python truthiness of a JSON value (used by the source in tests such as
if result: and if result.get('success'):).  A numeric literal is truthy
exactly when it denotes a non-zero number, i.e. when some digit other than
0 occurs in its lexeme. -/
def jTruthy : JValue → Bool
  | .null => false
  | .bool b => b
  | .num lex => lex.toList.any (fun c => c.isDigit && c ≠ '0')
  | .str s => s ≠ ""
  | .list l => !l.isEmpty
  | .obj l => !l.isEmpty

/-- Hexadecimal digit for escape rendering. -/
def hexDigit (n : Nat) : Char :=
  if n < 10 then Char.ofNat (48 + n) else Char.ofNat (87 + (n % 16))

/-- Render one character the way Python json.dumps (ensure_ascii=True)
does inside a string literal. -/
def jsonEscapeChar (c : Char) : List Char :=
  if c = '"' then ['\\', '"']
  else if c = '\\' then ['\\', '\\']
  else if c = '\n' then ['\\', 'n']
  else if c = '\t' then ['\\', 't']
  else if c = '\r' then ['\\', 'r']
  else if c.toNat ≥ 0x20 && c.toNat < 0x7f then [c]
  else ['\\', 'u', hexDigit ((c.toNat / 4096) % 16), hexDigit ((c.toNat / 256) % 16),
        hexDigit ((c.toNat / 16) % 16), hexDigit (c.toNat % 16)]

/-- Python json.dumps of a string body. -/
def jsonEscape (s : String) : String :=
  String.mk (s.toList.foldr (fun c acc => jsonEscapeChar c ++ acc) [])

mutual

/-- Python json.dumps with the default separators (", " and ": "). -/
def jsonDumps : JValue → String
  | .null => "null"
  | .bool true => "true"
  | .bool false => "false"
  | .num lex => lex
  | .str s => "\"" ++ jsonEscape s ++ "\""
  | .list l => "[" ++ jsonDumpsList l ++ "]"
  | .obj l => "\x7b" ++ jsonDumpsObj l ++ "\x7d"

/-- Comma-joined rendering of array elements. -/
def jsonDumpsList : List JValue → String
  | [] => ""
  | [v] => jsonDumps v
  | v :: w :: rest => jsonDumps v ++ ", " ++ jsonDumpsList (w :: rest)

/-- Comma-joined rendering of object entries. -/
def jsonDumpsObj : List (String × JValue) → String
  | [] => ""
  | [(k, v)] => "\"" ++ jsonEscape k ++ "\": " ++ jsonDumps v
  | (k, v) :: e :: rest =>
      "\"" ++ jsonEscape k ++ "\": " ++ jsonDumps v ++ ", " ++ jsonDumpsObj (e :: rest)

end

/-! ## Schema (config.py) -/

/-- config.DATA_FIELDS. -/
def DATA_FIELDS : List String :=
  ["name", "headline", "location", "about", "current_company",
   "current_position", "education", "top_skills", "profile_url",
   "connections", "scraped_at"]

/-- config.EXTENDED_DATA_FIELDS. -/
def EXTENDED_DATA_FIELDS : List String :=
  ["all_skills", "skills_count", "email", "phone", "website",
   "profile_image_url", "pronouns", "all_experience", "all_education"]

/-- all_fields = config.DATA_FIELDS + config.EXTENDED_DATA_FIELDS, as
computed in _normalize_profile_data and export_to_csv. -/
def all_fields : List String :=
  DATA_FIELDS ++ EXTENDED_DATA_FIELDS

/-! ## Record Normalizer (_normalize_profile_data) -/

/-- One iteration of the for field in all_fields loop of
_normalize_profile_data: copy the raw value when present, otherwise a
type-appropriate default (empty list for the two list fields, "N/A"
otherwise; the all_skills branch of the source also yields "N/A" since it
is only reached when the key is absent). -/
def normStep (profile_data : Dict) (normalized : Dict) (field : String) : Dict :=
  if dictContains profile_data field then
    dictSet normalized field (dictGetD profile_data field .null)
  else if field = "all_experience" ∨ field = "all_education" then
    dictSet normalized field (dictGetD profile_data field (.list []))
  else if field = "all_skills" then
    dictSet normalized field (dictGetD profile_data "all_skills" (.str "N/A"))
  else
    dictSet normalized field (.str "N/A")

/-- The trailing CSV-compatibility step of _normalize_profile_data: if the
field currently holds a native list, replace it by its json.dumps text. -/
def serializeListField (normalized : Dict) (field : String) : Dict :=
  match dictGet normalized field with
  | some (.list l) => dictSet normalized field (.str (jsonDumps (.list l)))
  | _ => normalized

/-- PuppeteerLinkedInScraper._normalize_profile_data.  The now argument
stands for datetime.now().strftime("%Y-%m-%d %H:%M:%S"), the only
observation of the clock. -/
def normalizeProfileData (now : String) (profile_data : Dict) : Dict :=
  let normalized : Dict :=
    [("profile_url", dictGetD profile_data "profile_url" (.str "N/A")),
     ("scraped_at", dictGetD profile_data "scraped_at" (.str now))]
  let normalized := all_fields.foldl (normStep profile_data) normalized
  let normalized := serializeListField normalized "all_experience"
  serializeListField normalized "all_education"

/-- The value the field loop of _normalize_profile_data assigns to a given
schema field (independent of the accumulator). -/
def normValue (profile_data : Dict) (field : String) : JValue :=
  if dictContains profile_data field then dictGetD profile_data field .null
  else if field = "all_experience" ∨ field = "all_education" then .list []
  else .str "N/A"

/-- json.dumps a value when it is a native list, otherwise leave it. -/
def serializeIfList : JValue → JValue
  | .list l => .str (jsonDumps (.list l))
  | v => v

/-- The value a schema field holds in the fully normalized record. -/
def normFinalValue (profile_data : Dict) (field : String) : JValue :=
  if field = "all_experience" ∨ field = "all_education" then
    serializeIfList (normValue profile_data field)
  else normValue profile_data field

/-- Append each element of the second list that is not already present;
the merge pandas and the source column loop perform on column lists and
the key-shape of the normalizer loop. -/
def addMissing (base : List String) (extra : List String) : List String :=
  extra.foldl (fun acc f => if acc.contains f then acc else acc ++ [f]) base

/-- The key list of every normalized record: the two seed keys followed by
the remaining schema fields in all_fields order. -/
def normKeys : List String :=
  addMissing ["profile_url", "scraped_at"] all_fields

/-! ## Session Manager and Scrape Coordinator

The Node.js worker is a child process; its behaviour is represented by an
oracle from invocation to optional parsed JSON result (the value
_run_node_script would return for that invocation).  self.profiles_data is
threaded explicitly as a list of normalized records. -/

/-- The two shapes of scrape invocation the coordinator issues. -/
inductive WorkerCall where
  | single (url : String)
  | multiTab (urls : List String) (maxConcurrent : Nat)

/-- PuppeteerLinkedInScraper.ensure_login, given the credentials from
config and the bridge result of the login-only invocation.  Success
requires a truthy dict whose success entry is truthy; every other shape
(including an error entry or absence-of-result) yields False. -/
def ensure_login (email password : String) (loginResult : Option JValue) : Bool :=
  if email = "" ∨ password = "" then false
  else
    match loginResult with
    | none => false
    | some r =>
      if jTruthy r then
        match r with
        | .obj o => jTruthy (dictGetD o "success" .null)
        | _ => false
      else false

/-- PuppeteerLinkedInScraper.scrape_single_profile, given the bridge
result for its scrape invocation and the current profiles_data.  Returns
the value of the call and the updated profiles_data.  A non-dict head of a
list result makes the Python raise inside normalization; the exception is
caught by the only caller (scrape_profiles), so its net effect on
profiles_data — nothing appended — is what the embedding records. -/
def scrape_single_profile (now : String) (result : Option JValue)
    (profiles_data : List Dict) : Option Dict × List Dict :=
  match result with
  | none => (none, profiles_data)
  | some r =>
    if jTruthy r then
      match r with
      | .list (x :: _) =>
        match x with
        | .obj o =>
          let nd := normalizeProfileData now o
          (some nd, profiles_data ++ [nd])
        | _ => (none, profiles_data)
      | .obj o =>
        if dictContains o "error" then (none, profiles_data)
        else
          let nd := normalizeProfileData now o
          (some nd, profiles_data ++ [nd])
      | _ => (none, profiles_data)
    else (none, profiles_data)

/-- One iteration of the result loop of scrape_profiles_multi_tab: dict
entries are normalized and appended whether or not they carry an error
key; non-dict entries are skipped. -/
def multiTabStep (now : String) (profiles_data : List Dict) (item : JValue) : List Dict :=
  match item with
  | .obj o => profiles_data ++ [normalizeProfileData now o]
  | _ => profiles_data

/-- PuppeteerLinkedInScraper.scrape_profiles_multi_tab, given the bridge
result for the combined invocation.  Returns the updated profiles_data
(the value the source returns). -/
def scrape_profiles_multi_tab (now : String) (profile_urls : List String)
    (result : Option JValue) (profiles_data : List Dict) : List Dict :=
  if profile_urls.isEmpty then profiles_data
  else
    match result with
    | none => profiles_data
    | some r =>
      if jTruthy r then
        match r with
        | .list items => items.foldl (multiTabStep now) profiles_data
        | .obj o =>
          if dictContains o "error" then profiles_data
          else profiles_data ++ [normalizeProfileData now o]
        | _ => profiles_data
      else profiles_data

/-- Python list slicing urls[:n] for an int n: the first n elements when n
is non-negative, everything but the last -n elements when n is negative. -/
def pySliceTo (l : List String) (n : Int) : List String :=
  if 0 ≤ n then l.take n.toNat else l.take (l.length - (-n).toNat)

/-- The Init step of scrape_profiles: if max_profiles: profile_urls =
profile_urls[:max_profiles].  None and 0 are falsy, so neither truncates. -/
def truncateTargets (profile_urls : List String) (max_profiles : Option Int) : List String :=
  match max_profiles with
  | none => profile_urls
  | some n => if n = 0 then profile_urls else pySliceTo profile_urls n

/-- PuppeteerLinkedInScraper.scrape_profiles: truncate, ensure login
(abort with the empty profiles_data on failure), then dispatch to the
sequential path for exactly one target and to one multi-tab invocation
otherwise.  The run starts with empty profiles_data and returns the
accumulated list. -/
def scrape_profiles (now email password : String) (loginResult : Option JValue)
    (worker : WorkerCall → Option JValue) (profile_urls : List String)
    (max_profiles : Option Int) : List Dict :=
  let targets := truncateTargets profile_urls max_profiles
  if ensure_login email password loginResult then
    match targets with
    | [u] => (scrape_single_profile now (worker (.single u)) []).2
    | _ =>
      scrape_profiles_multi_tab now targets
        (worker (.multiTab targets (min 3 targets.length))) []
  else []

/-! ## Target loader (load_profile_urls) -/

/-- Python str.strip() whitespace predicate. -/
def pyIsSpace (c : Char) : Bool :=
  c = ' ' ∨ c = '\t' ∨ c = '\n' ∨ c = '\r' ∨ c = '\x0b' ∨ c = '\x0c'

/-- Python str.strip() on a character list. -/
def pyStrip (l : List Char) : List Char :=
  ((l.dropWhile pyIsSpace).reverse.dropWhile pyIsSpace).reverse

/-- Python str.strip() on a string. -/
def pyStripStr (s : String) : String :=
  String.mk (pyStrip s.toList)

/-- Does pat occur in s as a prefix? -/
def listStartsWith : List Char → List Char → Bool
  | _, [] => true
  | [], _ :: _ => false
  | c :: cs, p :: ps => c = p && listStartsWith cs ps

/-- Python substring membership pat in s. -/
def strContains (s pat : String) : Bool :=
  (List.range (s.toList.length + 1)).any fun i => listStartsWith (s.toList.drop i) pat.toList

/-- Characters allowed in a URL scheme by urllib (letters, digits, and
+ - .). -/
def schemeChar (c : Char) : Bool :=
  c.isAlpha || c.isDigit || c = '+' || c = '-' || c = '.'

/-- The scheme-stripping step of urllib.parse.urlsplit: when the text up
to the first colon is a non-empty valid scheme starting with a letter, the
remainder after the colon; otherwise the text unchanged. -/
def stripScheme (url : List Char) : List Char :=
  let pre := url.takeWhile (· ≠ ':')
  if pre.length < url.length &&
      (match pre with | c :: _ => c.isAlpha | [] => false) && pre.all schemeChar then
    url.drop (pre.length + 1)
  else url

/-- urllib.parse.urlparse(url).netloc: present only when the remainder
after the scheme starts with //, and then runs to the first of / ? #. -/
def urlparseNetloc (url : String) : String :=
  match stripScheme url.toList with
  | '/' :: '/' :: r => String.mk (r.takeWhile fun c => c ≠ '/' && c ≠ '?' && c ≠ '#')
  | _ => ""

/-- The per-line filter of load_profile_urls: keep a stripped line when it
is non-empty, is not a comment, and its netloc contains linkedin.com as a
substring. -/
def keepUrl (url : String) : Bool :=
  url ≠ "" && !(listStartsWith url.toList ['#']) && strContains (urlparseNetloc url) "linkedin.com"

/-- The loop body of load_profile_urls for one line of the file: strip,
skip blanks and comments, keep when the parsed netloc contains
linkedin.com, warn-and-drop otherwise. -/
def loadStep (urls : List String) (line : String) : List String :=
  let url := pyStripStr line
  if url ≠ "" && !(listStartsWith url.toList ['#']) then
    if strContains (urlparseNetloc url) "linkedin.com" then urls ++ [url]
    else urls
  else urls

/-- load_profile_urls, with the file contents given as its list of lines
(the file handle iteration of the source). -/
def load_profile_urls (fileLines : List String) : List String :=
  fileLines.foldl loadStep []

/-- Modelled from the spec: the membership test the specification words
"a URL whose host belongs to the expected domain" describe — the host is
linkedin.com itself or one of its subdomains.  Used only to compare the
loader against the specified validation. -/
def hostInLinkedinDomain (host : String) : Bool :=
  host = "linkedin.com" || listStartsWith host.toList.reverse "moc.nideknil.".toList

/-! ## Exporter (export_to_csv) -/

/-- The column list of pandas.DataFrame(records): keys in order of first
appearance across the records. -/
def dfColumns (records : List Dict) : List String :=
  records.foldl (fun cols r => addMissing cols (dictKeys r)) []

/-- The DataFrame columns after the for field in all_fields loop of
export_to_csv added every missing schema column (pandas appends a new
column at the end). -/
def exportCols (records : List Dict) : List String :=
  addMissing (dfColumns records) all_fields

/-- standard_fields of export_to_csv. -/
def exportStandard (records : List Dict) : List String :=
  all_fields.filter fun f => (exportCols records).contains f

/-- remaining_fields of export_to_csv. -/
def exportRemaining (records : List Dict) : List String :=
  (exportCols records).filter fun f => !((exportStandard records).contains f)

/-- The extra (non-schema) columns export_to_csv leaves after the
standard ones. -/
def exportExtras (records : List Dict) : List String :=
  (exportCols records).filter fun f => !(all_fields.contains f)

/-- PuppeteerLinkedInScraper.export_to_csv, reduced to its observable
interface shape: None (no file written) for an empty record set, otherwise
the header column order of the written CSV.  Mirrors the source: collect
DataFrame columns, append any missing schema field, then put the schema
fields first and every remaining column after them. -/
def export_to_csv (records : List Dict) : Option (List String) :=
  if records.isEmpty then none
  else some (exportStandard records ++ exportRemaining records)

/-! ## Worker Bridge (_run_node_script)

json.loads is embedded as a recursive-descent parser over character
lists.  Recursion is bounded by an explicit fuel argument; jsonLoads
supplies fuel proportional to the input length, which dominates the
recursion depth of any parse.  Python specifics kept: leading/trailing
whitespace tolerated, full consumption required, leading zeros rejected,
NaN and the infinities accepted as number lexemes.  (Numeric values stay
lexemes: no claim depends on float arithmetic.) -/

/-- JSON whitespace as skipped by Python json. -/
def jsonWs (c : Char) : Bool :=
  c = ' ' || c = '\t' || c = '\n' || c = '\r'

/-- Drop leading JSON whitespace. -/
def skipWs (l : List Char) : List Char :=
  l.dropWhile jsonWs

/-- Hex digit value for string escapes. -/
def hexVal (c : Char) : Option Nat :=
  if c.isDigit then some (c.toNat - 48)
  else if 'a' ≤ c ∧ c ≤ 'f' then some (c.toNat - 87)
  else if 'A' ≤ c ∧ c ≤ 'F' then some (c.toNat - 55)
  else none

/-- Body of a JSON string literal, after the opening quote: decoded text
plus the rest of the input past the closing quote. -/
def parseStrBody (fuel : Nat) (l : List Char) (acc : List Char) : Option (String × List Char) :=
  match fuel with
  | 0 => none
  | fuel + 1 =>
    match l with
    | [] => none
    | c :: rest =>
      if c = '"' then some (String.mk acc.reverse, rest)
      else if c = '\\' then
        match rest with
        | [] => none
        | e :: rest2 =>
          if e = '"' || e = '\\' || e = '/' then parseStrBody fuel rest2 (e :: acc)
          else if e = 'b' then parseStrBody fuel rest2 ('\x08' :: acc)
          else if e = 'f' then parseStrBody fuel rest2 ('\x0c' :: acc)
          else if e = 'n' then parseStrBody fuel rest2 ('\n' :: acc)
          else if e = 'r' then parseStrBody fuel rest2 ('\r' :: acc)
          else if e = 't' then parseStrBody fuel rest2 ('\t' :: acc)
          else if e = 'u' then
            match rest2 with
            | h1 :: h2 :: h3 :: h4 :: rest6 =>
              match hexVal h1, hexVal h2, hexVal h3, hexVal h4 with
              | some a, some b, some cc, some d =>
                parseStrBody fuel rest6 (Char.ofNat (4096 * a + 256 * b + 16 * cc + d) :: acc)
              | _, _, _, _ => none
            | _ => none
          else none
      else if c.toNat < 0x20 then none
      else parseStrBody fuel rest (c :: acc)

/-- Maximal number lexeme at the head of the input, following the json
module grammar (optional sign, integer part without leading zeros,
optional fraction, optional exponent). -/
def parseNumLex (l : List Char) : Option (List Char × List Char) :=
  let (sgn, l1) := match l with
    | '-' :: r => ((['-'] : List Char), r)
    | _ => (([] : List Char), l)
  let ip := l1.takeWhile Char.isDigit
  let r1 := l1.dropWhile Char.isDigit
  if ip.isEmpty then none
  else if ip.length > 1 && ip.headD '0' = '0' then none
  else
    let (fp, r2) := match r1 with
      | '.' :: rr =>
        let ds := rr.takeWhile Char.isDigit
        if ds.isEmpty then (([] : List Char), r1)
        else ('.' :: ds, rr.dropWhile Char.isDigit)
      | _ => (([] : List Char), r1)
    let (ep, r3) := match r2 with
      | e :: rr =>
        if e = 'e' || e = 'E' then
          let (sg, rr2) := match rr with
            | '+' :: t => ((['+'] : List Char), t)
            | '-' :: t => ((['-'] : List Char), t)
            | _ => (([] : List Char), rr)
          let ds := rr2.takeWhile Char.isDigit
          if ds.isEmpty then (([] : List Char), r2)
          else (e :: (sg ++ ds), rr2.dropWhile Char.isDigit)
        else (([] : List Char), r2)
      | _ => (([] : List Char), r2)
    some (sgn ++ ip ++ fp ++ ep, r3)

mutual

/-- One JSON value at the head of the input (whitespace already
skipped), with the remaining input. -/
def parseVal (fuel : Nat) (l : List Char) : Option (JValue × List Char) :=
  match fuel with
  | 0 => none
  | fuel + 1 =>
    match l with
    | [] => none
    | c :: rest =>
      if c = '\x7b' then
        match skipWs rest with
        | '\x7d' :: r2 => some (.obj [], r2)
        | r2 => parseObjItems fuel r2 []
      else if c = '[' then
        match skipWs rest with
        | ']' :: r2 => some (.list [], r2)
        | r2 => parseArrItems fuel r2 []
      else if c = '"' then
        (parseStrBody (rest.length + 1) rest []).map fun sv => (.str sv.1, sv.2)
      else if c = 't' then
        match rest with
        | 'r' :: 'u' :: 'e' :: r => some (.bool true, r)
        | _ => none
      else if c = 'f' then
        match rest with
        | 'a' :: 'l' :: 's' :: 'e' :: r => some (.bool false, r)
        | _ => none
      else if c = 'n' then
        match rest with
        | 'u' :: 'l' :: 'l' :: r => some (.null, r)
        | _ => none
      else if c = 'N' then
        match rest with
        | 'a' :: 'N' :: r => some (.num "NaN", r)
        | _ => none
      else if c = 'I' then
        match rest with
        | 'n' :: 'f' :: 'i' :: 'n' :: 'i' :: 't' :: 'y' :: r => some (.num "Infinity", r)
        | _ => none
      else if c = '-' then
        match rest with
        | 'I' :: 'n' :: 'f' :: 'i' :: 'n' :: 'i' :: 't' :: 'y' :: r =>
          some (.num "-Infinity", r)
        | _ => (parseNumLex l).map fun nr => (.num (String.mk nr.1), nr.2)
      else if c.isDigit then
        (parseNumLex l).map fun nr => (.num (String.mk nr.1), nr.2)
      else none

/-- Array elements after the opening bracket of a non-empty array. -/
def parseArrItems (fuel : Nat) (l : List Char) (acc : List JValue) : Option (JValue × List Char) :=
  match fuel with
  | 0 => none
  | fuel + 1 =>
    match parseVal fuel (skipWs l) with
    | none => none
    | some (v, r) =>
      match skipWs r with
      | ',' :: r2 => parseArrItems fuel r2 (v :: acc)
      | ']' :: r2 => some (.list (v :: acc).reverse, r2)
      | _ => none

/-- Object entries after the opening brace of a non-empty object. -/
def parseObjItems (fuel : Nat) (l : List Char) (acc : List (String × JValue)) :
    Option (JValue × List Char) :=
  match fuel with
  | 0 => none
  | fuel + 1 =>
    match skipWs l with
    | '"' :: r =>
      match parseStrBody (r.length + 1) r [] with
      | none => none
      | some (k, r2) =>
        match skipWs r2 with
        | ':' :: r3 =>
          match parseVal fuel (skipWs r3) with
          | none => none
          | some (v, r4) =>
            match skipWs r4 with
            | ',' :: r5 => parseObjItems fuel r5 ((k, v) :: acc)
            | '\x7d' :: r5 => some (.obj ((k, v) :: acc).reverse, r5)
            | _ => none
        | _ => none
    | _ => none

end

/-- json.loads on a character list: parse exactly one value, allowing
surrounding whitespace, and fail on anything else (the JSONDecodeError
outcome becomes none). -/
def jsonLoads (l : List Char) : Option JValue :=
  let t := skipWs l
  match parseVal (2 * t.length + 4) t with
  | some (v, r) => if skipWs r = [] then some v else none
  | none => none

/-- Python text.split(sep) for a one-character separator: always at least
one (possibly empty) piece. -/
def splitOnChar (sep : Char) : List Char → List (List Char)
  | [] => [[]]
  | x :: xs =>
    if x = sep then [] :: splitOnChar sep xs
    else
      match splitOnChar sep xs with
      | [] => [[x]]
      | y :: ys => (x :: y) :: ys

/-- The line-scanning loop of _run_node_script: over the last five lines,
last first, return the first stripped line that starts a JSON object or
array and parses; parse failures continue the scan. -/
def findJsonLine : List (List Char) → Option JValue
  | [] => none
  | line :: rest =>
    let l := pyStrip line
    if !l.isEmpty && (listStartsWith l ['\x7b'] || listStartsWith l ['[']) then
      match jsonLoads l with
      | some v => some v
      | none => findJsonLine rest
    else findJsonLine rest

/-- The prefix of the input up to and including the last occurrence of
the given character. -/
def takeUpToLast (c : Char) (l : List Char) : List Char :=
  (l.reverse.dropWhile (· ≠ c)).reverse

/-- re.search of the pattern (\[.*\]|\{.*\}) with DOTALL: the earliest
position opening a bracket that closes somewhere later, matched greedily
to the last such closer. -/
def regexJsonSpan : List Char → Option (List Char)
  | [] => none
  | c :: rest =>
    if c = '[' && rest.contains ']' then some (c :: takeUpToLast ']' rest)
    else if c = '\x7b' && rest.contains '\x7d' then some (c :: takeUpToLast '\x7d' rest)
    else regexJsonSpan rest

/-- The JSON-extraction cascade of _run_node_script on the captured
stdout of a zero-exit worker: strip; empty output is failure; then try
the last-five-lines scan, then the whole text, then the first regex
bracket span (whose parse failure is caught and becomes failure). -/
def extractJson (stdout : List Char) : Option JValue :=
  if (pyStrip stdout).isEmpty then none
  else
    match findJsonLine ((splitOnChar '\n' (pyStrip stdout)).reverse.take 5) with
    | some v => some v
    | none =>
      match jsonLoads (pyStrip stdout) with
      | some v => some v
      | none => (regexJsonSpan (pyStrip stdout)).bind jsonLoads

/-- PuppeteerLinkedInScraper._run_node_script reduced to its result
contract: a non-zero exit code is always failure (the stderr diagnostics
only feed logging); a zero exit code yields whatever the extraction
cascade recovers from stdout.  Timeouts and spawn errors are the none
value of the returncode argument position in callers. -/
def run_node_script (returncode : Int) (stdout : List Char) : Option JValue :=
  if returncode = 0 then extractJson stdout else none

/-! ## Dictionary lemmas -/

theorem dictGet_dictSet (d : Dict) (k : String) (v : JValue) (f : String) :
    dictGet (dictSet d k v) f = if f = k then some v else dictGet d f := by
  induction d with
  | nil =>
    by_cases h : f = k
    · simp [dictSet, dictGet, h]
    · have h2 : ¬ k = f := fun hh => h hh.symm
      simp [dictSet, dictGet, h, h2]
  | cons hd tl ih =>
    obtain ⟨k', v'⟩ := hd
    by_cases hk : k' = k
    · subst hk
      by_cases hf : f = k'
      · subst hf
        simp [dictSet, dictGet]
      · have h2 : ¬ k' = f := fun hh => hf hh.symm
        simp [dictSet, dictGet, hf, h2]
    · by_cases hf : k' = f
      · subst hf
        have h2 : ¬ k' = k := hk
        have h3 : ¬ k' = k := hk
        simp [dictSet, dictGet, hk, h2, h3]
      · simp [dictSet, dictGet, hk, hf, ih]

theorem dictKeys_dictSet (d : Dict) (k : String) (v : JValue) :
    dictKeys (dictSet d k v) =
      if (dictKeys d).contains k then dictKeys d else dictKeys d ++ [k] := by
  induction d with
  | nil => simp [dictSet, dictKeys]
  | cons hd tl ih =>
    obtain ⟨k', v'⟩ := hd
    by_cases hk : k' = k
    · subst hk
      simp [dictSet, dictKeys]
    · have hne : ¬ k = k' := fun hh => hk hh.symm
      have hbeq : (k == k') = false := beq_eq_false_iff_ne.mpr hne
      simp only [dictKeys] at ih
      have hcond : (k' :: List.map Prod.fst tl).contains k
          = (List.map Prod.fst tl).contains k := by
        rw [List.contains_cons, hbeq, Bool.false_or]
      by_cases hc : (List.map Prod.fst tl).contains k = true
      · rw [if_pos hc] at ih
        simp only [dictSet, if_neg hk, dictKeys, List.map_cons, hcond, ih]
        rw [if_pos hc]
      · rw [if_neg hc] at ih
        simp only [dictSet, if_neg hk, dictKeys, List.map_cons, hcond, ih]
        rw [if_neg hc]
        simp

theorem dictGet_isSome_iff (d : Dict) (f : String) :
    (dictGet d f).isSome = true ↔ f ∈ dictKeys d := by
  induction d with
  | nil => simp [dictGet, dictKeys]
  | cons hd tl ih =>
    obtain ⟨k', v'⟩ := hd
    by_cases hk : k' = f
    · subst hk
      simp [dictGet, dictKeys]
    · have h2 : ¬ f = k' := fun hh => hk hh.symm
      simp [dictGet, dictKeys, hk, h2] at ih ⊢
      exact ih

theorem dictGet_eq_none_of_not_mem (d : Dict) (f : String) (h : f ∉ dictKeys d) :
    dictGet d f = none := by
  have := (dictGet_isSome_iff d f).not.mpr h
  cases hg : dictGet d f
  · rfl
  · exact absurd (by simp [hg]) this

theorem dictContains_iff_mem (d : Dict) (f : String) :
    dictContains d f = true ↔ f ∈ dictKeys d := by
  simpa [dictContains] using dictGet_isSome_iff d f

/-- Two dicts with the same duplicate-free key sequence and the same
lookups are equal. -/
theorem dict_ext (d1 d2 : Dict) (hk : dictKeys d1 = dictKeys d2)
    (hnd : (dictKeys d1).Nodup) (hv : ∀ k, dictGet d1 k = dictGet d2 k) :
    d1 = d2 := by
  induction d1 generalizing d2 with
  | nil =>
    cases d2 with
    | nil => rfl
    | cons hd tl => simp [dictKeys] at hk
  | cons hd tl ih =>
    obtain ⟨k, v⟩ := hd
    cases d2 with
    | nil => simp [dictKeys] at hk
    | cons hd2 tl2 =>
      obtain ⟨k2, v2⟩ := hd2
      simp only [dictKeys, List.map_cons, List.cons.injEq] at hk
      obtain ⟨hkk, hkt⟩ := hk
      subst hkk
      have hvk := hv k
      simp only [dictGet, if_pos rfl] at hvk
      obtain rfl : v = v2 := by simpa using hvk
      simp only [dictKeys, List.map_cons, List.nodup_cons] at hnd
      obtain ⟨hknot, hndt⟩ := hnd
      have hknot2 : k ∉ dictKeys tl2 := by
        show k ∉ List.map Prod.fst tl2
        rw [← hkt]
        exact hknot
      have htl : tl = tl2 := by
        refine ih tl2 hkt hndt (fun k' => ?_)
        by_cases hk' : k' = k
        · subst hk'
          rw [dictGet_eq_none_of_not_mem tl k' hknot,
              dictGet_eq_none_of_not_mem tl2 k' hknot2]
        · have hvv := hv k'
          have hne : ¬ k = k' := fun hh => hk' hh.symm
          simpa [dictGet, hne] using hvv
      rw [htl]

/-! ## Normalizer lemmas -/

theorem dictGet_eq_none_of_contains_false (d : Dict) (f : String)
    (h : dictContains d f = false) : dictGet d f = none := by
  cases hg : dictGet d f with
  | none => rfl
  | some v =>
    rw [dictContains, hg] at h
    simp at h

/-- Each loop iteration of _normalize_profile_data is an assignment of
the accumulator-independent value normValue. -/
theorem normStep_eq_dictSet (pd n : Dict) (f : String) :
    normStep pd n f = dictSet n f (normValue pd f) := by
  unfold normStep normValue
  by_cases h : dictContains pd f = true
  · simp [h]
  · have h' : dictContains pd f = false := by simpa using h
    have hnone : dictGet pd f = none := dictGet_eq_none_of_contains_false pd f h'
    by_cases h2 : f = "all_experience" ∨ f = "all_education"
    · simp [h', h2, dictGetD, hnone]
    · by_cases h3 : f = "all_skills"
      · subst h3
        simp [h', h2, dictGetD, hnone]
      · simp [h', h2, h3]

theorem dictGet_foldl_normStep_not_mem (pd : Dict) (fields : List String) (init : Dict)
    (f : String) (h : f ∉ fields) :
    dictGet (fields.foldl (normStep pd) init) f = dictGet init f := by
  induction fields generalizing init with
  | nil => rfl
  | cons g gs ih =>
    have hfg : f ≠ g := fun hh => h (hh ▸ List.mem_cons_self g gs)
    have hgs : f ∉ gs := fun hh => h (List.mem_cons_of_mem g hh)
    simp only [List.foldl_cons]
    rw [ih _ hgs, normStep_eq_dictSet, dictGet_dictSet, if_neg hfg]

theorem dictGet_foldl_normStep_mem (pd : Dict) (fields : List String) (init : Dict)
    (f : String) (h : f ∈ fields) :
    dictGet (fields.foldl (normStep pd) init) f = some (normValue pd f) := by
  induction fields generalizing init with
  | nil => cases h
  | cons g gs ih =>
    simp only [List.foldl_cons]
    by_cases hf : f ∈ gs
    · exact ih _ hf
    · have hfg : f = g := by
        rcases List.mem_cons.mp h with h1 | h1
        · exact h1
        · exact absurd h1 hf
      subst hfg
      rw [dictGet_foldl_normStep_not_mem pd gs _ f hf,
          normStep_eq_dictSet, dictGet_dictSet, if_pos rfl]

theorem addMissing_cons (base : List String) (f : String) (fs : List String) :
    addMissing base (f :: fs) = addMissing (if base.contains f then base else base ++ [f]) fs :=
  rfl

theorem dictKeys_foldl_normStep (pd : Dict) (fields : List String) (init : Dict) :
    dictKeys (fields.foldl (normStep pd) init) = addMissing (dictKeys init) fields := by
  induction fields generalizing init with
  | nil => rfl
  | cons g gs ih =>
    simp only [List.foldl_cons]
    rw [ih, addMissing_cons]
    congr 1
    rw [normStep_eq_dictSet, dictKeys_dictSet]

theorem dictGet_serializeListField_ne (n : Dict) (g f : String) (h : f ≠ g) :
    dictGet (serializeListField n g) f = dictGet n f := by
  unfold serializeListField
  split
  · rw [dictGet_dictSet, if_neg h]
  · rfl

theorem dictGet_serializeListField_self (n : Dict) (g : String) :
    dictGet (serializeListField n g) g = (dictGet n g).map serializeIfList := by
  unfold serializeListField
  split
  · next l heq =>
    rw [dictGet_dictSet, if_pos rfl, heq]
    rfl
  · next hne =>
    cases hg : dictGet n g with
    | none => rfl
    | some v =>
      cases v with
      | list l => exact absurd hg (hne l)
      | null => rfl
      | bool b => rfl
      | num s => rfl
      | str s => rfl
      | obj o => rfl

theorem dictKeys_serializeListField (n : Dict) (g : String) :
    dictKeys (serializeListField n g) = dictKeys n := by
  unfold serializeListField
  split
  · next l heq =>
    rw [dictKeys_dictSet]
    have hmem : g ∈ dictKeys n := (dictGet_isSome_iff n g).mp (by rw [heq]; rfl)
    rw [if_pos (List.elem_eq_true_of_mem hmem)]
  · rfl

/-- The key sequence of every normalized record is the fixed normKeys
list, whatever the raw record held. -/
theorem normalizeProfileData_keys (now : String) (pd : Dict) :
    dictKeys (normalizeProfileData now pd) = normKeys := by
  unfold normalizeProfileData
  rw [dictKeys_serializeListField, dictKeys_serializeListField,
      dictKeys_foldl_normStep]
  rfl

/-- Lookup of a schema field in a normalized record: the loop value, with
the two list fields additionally serialized. -/
theorem normalizeProfileData_get (now : String) (pd : Dict) (f : String)
    (h : f ∈ all_fields) :
    dictGet (normalizeProfileData now pd) f = some (normFinalValue pd f) := by
  unfold normalizeProfileData normFinalValue
  by_cases h1 : f = "all_experience"
  · subst h1
    rw [dictGet_serializeListField_ne _ _ _ (by decide),
        dictGet_serializeListField_self,
        dictGet_foldl_normStep_mem pd all_fields _ _ h]
    simp
  · by_cases h2 : f = "all_education"
    · subst h2
      rw [dictGet_serializeListField_self,
          dictGet_serializeListField_ne _ _ _ (by decide),
          dictGet_foldl_normStep_mem pd all_fields _ _ h]
      simp
    · rw [dictGet_serializeListField_ne _ _ _ h2,
          dictGet_serializeListField_ne _ _ _ h1,
          dictGet_foldl_normStep_mem pd all_fields _ _ h]
      simp [h1, h2]

/-- A key outside the schema never appears in a normalized record. -/
theorem normalizeProfileData_get_none (now : String) (pd : Dict) (f : String)
    (h : f ∉ all_fields) :
    dictGet (normalizeProfileData now pd) f = none := by
  have h1 : f ≠ "all_experience" := fun hh => h (hh ▸ (by decide : "all_experience" ∈ all_fields))
  have h2 : f ≠ "all_education" := fun hh => h (hh ▸ (by decide : "all_education" ∈ all_fields))
  have h3 : f ≠ "profile_url" := fun hh => h (hh ▸ (by decide : "profile_url" ∈ all_fields))
  have h4 : f ≠ "scraped_at" := fun hh => h (hh ▸ (by decide : "scraped_at" ∈ all_fields))
  unfold normalizeProfileData
  rw [dictGet_serializeListField_ne _ _ _ h2, dictGet_serializeListField_ne _ _ _ h1,
      dictGet_foldl_normStep_not_mem pd all_fields _ f h]
  have h3' : ¬ ("profile_url" = f) := fun hh => h3 hh.symm
  have h4' : ¬ ("scraped_at" = f) := fun hh => h4 hh.symm
  simp [dictGet, h3', h4']

/-! ## Helper lemmas for the field values, the exporter and the bridge -/

theorem normValue_eq_nonlist (pd : Dict) (f : String)
    (h1 : f ≠ "all_experience") (h2 : f ≠ "all_education") :
    normValue pd f = (dictGet pd f).getD (.str "N/A") := by
  unfold normValue
  cases hg : dictGet pd f with
  | some v => simp [dictContains, hg, dictGetD]
  | none => simp [dictContains, hg, h1, h2]

theorem normValue_eq_list (pd : Dict) (f : String)
    (h : f = "all_experience" ∨ f = "all_education") :
    normValue pd f = (dictGet pd f).getD (.list []) := by
  unfold normValue
  cases hg : dictGet pd f with
  | some v => simp [dictContains, hg, dictGetD]
  | none => simp [dictContains, hg, h]

theorem serializeIfList_not_list (v : JValue) (l : List JValue) :
    serializeIfList v ≠ JValue.list l := by
  cases v <;> simp [serializeIfList]

theorem serializeIfList_idem (v : JValue) :
    serializeIfList (serializeIfList v) = serializeIfList v := by
  cases v <;> rfl

theorem mem_addMissing_base (base extra : List String) (a : String) (h : a ∈ base) :
    a ∈ addMissing base extra := by
  induction extra generalizing base with
  | nil => exact h
  | cons f fs ih =>
    rw [addMissing_cons]
    apply ih
    split
    · exact h
    · exact List.mem_append_left _ h

theorem mem_addMissing_extra (base extra : List String) (a : String) (h : a ∈ extra) :
    a ∈ addMissing base extra := by
  induction extra generalizing base with
  | nil => cases h
  | cons f fs ih =>
    rw [addMissing_cons]
    rcases List.mem_cons.mp h with rfl | hmem
    · apply mem_addMissing_base
      by_cases hc : base.contains a = true
      · rw [if_pos hc]
        exact List.mem_of_elem_eq_true hc
      · rw [if_neg hc]
        exact List.mem_append_right _ (List.mem_singleton.mpr rfl)
    · exact ih _ hmem

theorem exportStandard_eq (records : List Dict) :
    exportStandard records = all_fields := by
  unfold exportStandard
  apply List.filter_eq_self.mpr
  intro a ha
  exact List.elem_eq_true_of_mem (mem_addMissing_extra _ _ a ha)

theorem exportRemaining_eq (records : List Dict) :
    exportRemaining records = exportExtras records := by
  unfold exportRemaining exportExtras
  rw [exportStandard_eq]

theorem exportExtras_inter (records : List Dict) :
    (exportExtras records).inter all_fields = [] := by
  rw [List.inter]
  apply List.filter_eq_nil_iff.mpr
  intro a ha
  intro hcontra
  unfold exportExtras at ha
  have h2 := (List.mem_filter.mp ha).2
  have h3 : all_fields.contains a = false := by
    cases hcc : all_fields.contains a
    · rfl
    · rw [hcc] at h2
      simp at h2
  have h4 : all_fields.contains a = true := hcontra
  rw [h4] at h3
  simp at h3

/-- The record loop of scrape_profiles_multi_tab appends exactly one
normalized record per dict item. -/
theorem foldl_multiTabStep_length (now : String) (items : List JValue) (pd : List Dict)
    (h : ∀ it ∈ items, ∃ o, it = JValue.obj o) :
    (items.foldl (multiTabStep now) pd).length = pd.length + items.length := by
  induction items generalizing pd with
  | nil => simp
  | cons it its ih =>
    obtain ⟨o, rfl⟩ := h it (List.mem_cons_self _ _)
    simp only [List.foldl_cons, multiTabStep]
    rw [ih _ (fun x hx => h x (List.mem_cons_of_mem _ hx))]
    simp
    omega

/-! ## Column lemmas for normalized records -/

theorem foldl_cols_const (now : String) (rs : List Dict) :
    (rs.map (normalizeProfileData now)).foldl
        (fun cols r => addMissing cols (dictKeys r)) normKeys = normKeys := by
  induction rs with
  | nil => rfl
  | cons r rest ih =>
    simp only [List.map_cons, List.foldl_cons]
    rw [normalizeProfileData_keys]
    have hself : addMissing normKeys normKeys = normKeys := by decide
    rw [hself, ih]

theorem dfColumns_map_norm (now : String) (records : List Dict) (h : records ≠ []) :
    dfColumns (records.map (normalizeProfileData now)) = normKeys := by
  cases records with
  | nil => exact absurd rfl h
  | cons r rs =>
    unfold dfColumns
    simp only [List.map_cons, List.foldl_cons]
    have h0 : addMissing [] (dictKeys (normalizeProfileData now r)) = normKeys := by
      rw [normalizeProfileData_keys]
      decide
    rw [h0]
    exact foldl_cols_const now rs

theorem export_map_norm (now : String) (records : List Dict) (h : records ≠ []) :
    export_to_csv (records.map (normalizeProfileData now)) = some all_fields := by
  cases records with
  | nil => exact absurd rfl h
  | cons r rs =>
    unfold export_to_csv
    rw [if_neg (by simp)]
    rw [exportStandard_eq, exportRemaining_eq]
    unfold exportExtras exportCols
    rw [dfColumns_map_norm now (r :: rs) h]
    decide

/-! ## Bridge lemmas -/

theorem splitOnChar_ne_nil (c : Char) (l : List Char) : splitOnChar c l ≠ [] := by
  cases l with
  | nil => simp [splitOnChar]
  | cons a as =>
    unfold splitOnChar
    split
    · simp
    · split
      · simp
      · simp

theorem splitOnChar_mem (c : Char) (l : List Char) (line : List Char) (x : Char)
    (hline : line ∈ splitOnChar c l) (hx : x ∈ line) : x ∈ l := by
  induction l generalizing line with
  | nil =>
    simp [splitOnChar] at hline
    subst hline
    cases hx
  | cons a as ih =>
    by_cases hac : a = c
    · rw [splitOnChar, if_pos hac] at hline
      rcases List.mem_cons.mp hline with rfl | hmem
      · cases hx
      · exact List.mem_cons_of_mem a (ih line hmem hx)
    · cases hsp : splitOnChar c as with
      | nil => exact absurd hsp (splitOnChar_ne_nil c as)
      | cons y ys =>
        rw [splitOnChar, if_neg hac, hsp] at hline
        rcases List.mem_cons.mp hline with rfl | hmem
        · rcases List.mem_cons.mp hx with rfl | hxy
          · exact List.mem_cons_self _ _
          · have hy : y ∈ splitOnChar c as := by
              rw [hsp]
              exact List.mem_cons_self _ _
            exact List.mem_cons_of_mem a (ih y hy hxy)
        · have hl : line ∈ splitOnChar c as := by
            rw [hsp]
            exact List.mem_cons_of_mem y hmem
          exact List.mem_cons_of_mem a (ih line hl hx)

theorem mem_of_mem_pyStrip (l : List Char) (x : Char) (h : x ∈ pyStrip l) : x ∈ l := by
  unfold pyStrip at h
  have h1 : x ∈ (l.dropWhile pyIsSpace).reverse.dropWhile pyIsSpace := List.mem_reverse.mp h
  have h2 : x ∈ (l.dropWhile pyIsSpace).reverse :=
    (List.dropWhile_sublist pyIsSpace).mem h1
  have h3 : x ∈ l.dropWhile pyIsSpace := List.mem_reverse.mp h2
  exact (List.dropWhile_sublist pyIsSpace).mem h3

theorem findJsonLine_none (L : List (List Char))
    (h : ∀ line ∈ L, '[' ∉ line ∧ '\x7b' ∉ line) : findJsonLine L = none := by
  induction L with
  | nil => rfl
  | cons line rest ih =>
    obtain ⟨hb, hc⟩ := h line (List.mem_cons_self _ _)
    have h1 : listStartsWith (pyStrip line) ['['] = false := by
      cases hl : pyStrip line with
      | nil => rfl
      | cons a as =>
        have ha : a ≠ '[' := by
          intro hEq
          apply hb
          rw [← hEq]
          exact mem_of_mem_pyStrip line a (by rw [hl]; exact List.mem_cons_self a as)
        simp [listStartsWith, ha]
    have h2 : listStartsWith (pyStrip line) ['\x7b'] = false := by
      cases hl : pyStrip line with
      | nil => rfl
      | cons a as =>
        have ha : a ≠ '\x7b' := by
          intro hEq
          apply hc
          rw [← hEq]
          exact mem_of_mem_pyStrip line a (by rw [hl]; exact List.mem_cons_self a as)
        simp [listStartsWith, ha]
    simp only [findJsonLine, h1, h2, Bool.or_self, Bool.and_false]
    exact ih (fun l2 hl2 => h l2 (List.mem_cons_of_mem _ hl2))

theorem regexJsonSpan_none (l : List Char) (hb : '[' ∉ l) (hc : '\x7b' ∉ l) :
    regexJsonSpan l = none := by
  induction l with
  | nil => rfl
  | cons a rest ih =>
    have ha1 : a ≠ '[' := fun h => hb (h ▸ List.mem_cons_self a rest)
    have ha2 : a ≠ '\x7b' := fun h => hc (h ▸ List.mem_cons_self a rest)
    have hb2 : '[' ∉ rest := fun h => hb (List.mem_cons_of_mem a h)
    have hc2 : '\x7b' ∉ rest := fun h => hc (List.mem_cons_of_mem a h)
    simp only [regexJsonSpan, ha1, ha2, decide_False, Bool.false_and, if_false]
    exact ih hb2 hc2

/-! ## Claim theorems -/

/-- Claim C9, counterexample.  The claim states that a schema field
absent from the raw record is filled with a type-appropriate default —
an empty list for list-typed fields and the current timestamp for
scraped_at.  On the empty raw object the code instead leaves scraped_at
equal to the sentinel "N/A" (the field loop overwrites the timestamp
default computed two lines earlier, which is dead code) and leaves
all_experience equal to the serialized text "[]", not a list. -/
theorem c9_counterexample :
    dictGet (normalizeProfileData "2026-01-01 12:00:00" []) "scraped_at"
        = some (JValue.str "N/A")
    ∧ "N/A" ≠ "2026-01-01 12:00:00"
    ∧ dictGet (normalizeProfileData "2026-01-01 12:00:00" []) "all_experience"
        = some (JValue.str "[]") :=
  ⟨rfl, by decide, rfl⟩

/-- Claim C9, amended.  Normalization is total over the schema: for
arbitrary raw input the normalized record carries exactly the fixed key
sequence normKeys, every non-list schema field is the raw value when
present and the sentinel "N/A" otherwise (including scraped_at, whose
current-timestamp fallback is overwritten by the sentinel), and each of
the two list fields is the raw value — serialized to JSON text when it is
a native list — defaulting to the serialized empty list. -/
theorem c9_amended_normalization_total (now : String) (pd : Dict) :
    dictKeys (normalizeProfileData now pd) = normKeys
    ∧ (∀ f ∈ all_fields, f ≠ "all_experience" → f ≠ "all_education" →
        dictGet (normalizeProfileData now pd) f
          = some ((dictGet pd f).getD (.str "N/A")))
    ∧ (∀ f, (f = "all_experience" ∨ f = "all_education") →
        dictGet (normalizeProfileData now pd) f
          = some (serializeIfList ((dictGet pd f).getD (.list [])))) := by
  refine ⟨normalizeProfileData_keys now pd, ?_, ?_⟩
  · intro f hf h1 h2
    rw [normalizeProfileData_get now pd f hf]
    unfold normFinalValue
    rw [if_neg (not_or.mpr ⟨h1, h2⟩), normValue_eq_nonlist pd f h1 h2]
  · intro f hor
    have hf : f ∈ all_fields := by
      rcases hor with h | h <;> subst h <;> decide
    rw [normalizeProfileData_get now pd f hf]
    unfold normFinalValue
    rw [if_pos hor, normValue_eq_list pd f hor]

/-- Claim C9, amended, witness at a concrete record. -/
theorem c9_amended_witness :
    dictGet (normalizeProfileData "TS" [("name", JValue.str "A")]) "name"
        = some ((dictGet [("name", JValue.str "A")] "name").getD (.str "N/A"))
    ∧ dictGet (normalizeProfileData "TS" [("name", JValue.str "A")]) "all_experience"
        = some (serializeIfList
            ((dictGet [("name", JValue.str "A")] "all_experience").getD (.list []))) :=
  ⟨(c9_amended_normalization_total "TS" [("name", JValue.str "A")]).2.1 "name"
      (by decide) (by decide) (by decide),
   (c9_amended_normalization_total "TS" [("name", JValue.str "A")]).2.2 "all_experience"
      (Or.inl rfl)⟩

/-- Claim C10 (confirmed).  The key sequence of every normalized record
is the fixed normKeys list, whose members are exactly the schema fields
DATA_FIELDS ++ EXTENDED_DATA_FIELDS; hence exporting any non-empty batch
of normalized records yields exactly the schema columns, with no ad hoc
column surviving from worker-injected extra fields. -/
theorem c10_normalized_keys_schema (now : String) (pd : Dict) (records : List Dict)
    (hrec : records ≠ []) :
    dictKeys (normalizeProfileData now pd) = normKeys
    ∧ normKeys.all (fun k => all_fields.contains k) = true
    ∧ all_fields.all (fun k => normKeys.contains k) = true
    ∧ export_to_csv (records.map (normalizeProfileData now)) = some all_fields :=
  ⟨normalizeProfileData_keys now pd, by decide, by decide,
   export_map_norm now records hrec⟩

/-- Claim C10, witness: a raw record with a worker-injected extra field
loses it, and the export of one normalized record has schema-only
columns. -/
theorem c10_witness :
    dictKeys (normalizeProfileData "TS" [("junk_field", JValue.str "j")]) = normKeys
    ∧ normKeys.all (fun k => all_fields.contains k) = true
    ∧ all_fields.all (fun k => normKeys.contains k) = true
    ∧ export_to_csv ([[("junk_field", JValue.str "j")]].map (normalizeProfileData "TS"))
        = some all_fields :=
  c10_normalized_keys_schema "TS" [("junk_field", JValue.str "j")]
    [[("junk_field", JValue.str "j")]] (List.cons_ne_nil _ _)

/-- Claim C6, counterexample.  The claim states that no list-typed raw
field value survives as a native list in the normalized record.  Only
all_experience and all_education are serialized: a raw record whose name
field is a list keeps that native list after normalization. -/
theorem c6_counterexample :
    dictGet (normalizeProfileData "TS" [("name", JValue.list [JValue.str "A"])]) "name"
      = some (JValue.list [JValue.str "A"]) :=
  rfl

/-- Claim C6, amended.  Exactly the two designated list fields
(all_experience, all_education) are flattened: they are never a native
list in the normalized record, while every other schema field present in
the raw record passes through unchanged — including list values. -/
theorem c6_amended_list_flattening (now : String) (pd : Dict) :
    (∀ l, dictGet (normalizeProfileData now pd) "all_experience"
        ≠ some (JValue.list l))
    ∧ (∀ l, dictGet (normalizeProfileData now pd) "all_education"
        ≠ some (JValue.list l))
    ∧ (∀ f ∈ all_fields, f ≠ "all_experience" → f ≠ "all_education" →
        dictContains pd f = true →
        dictGet (normalizeProfileData now pd) f = dictGet pd f) := by
  refine ⟨?_, ?_, ?_⟩
  · intro l heq
    rw [normalizeProfileData_get now pd "all_experience" (by decide)] at heq
    have := Option.some.inj heq
    unfold normFinalValue at this
    rw [if_pos (Or.inl rfl)] at this
    exact serializeIfList_not_list _ l this
  · intro l heq
    rw [normalizeProfileData_get now pd "all_education" (by decide)] at heq
    have := Option.some.inj heq
    unfold normFinalValue at this
    rw [if_pos (Or.inr rfl)] at this
    exact serializeIfList_not_list _ l this
  · intro f hf h1 h2 hcont
    rw [normalizeProfileData_get now pd f hf]
    unfold normFinalValue
    rw [if_neg (not_or.mpr ⟨h1, h2⟩), normValue_eq_nonlist pd f h1 h2]
    cases hg : dictGet pd f with
    | some v => rfl
    | none =>
      rw [dictContains, hg] at hcont
      simp at hcont

/-- Claim C6, amended, witness at a concrete record. -/
theorem c6_amended_witness :
    dictGet (normalizeProfileData "TS" [("headline", JValue.str "H")]) "all_experience"
        ≠ some (JValue.list [])
    ∧ dictGet (normalizeProfileData "TS" [("headline", JValue.str "H")]) "headline"
        = dictGet [("headline", JValue.str "H")] "headline" :=
  ⟨(c6_amended_list_flattening "TS" [("headline", JValue.str "H")]).1 [],
   (c6_amended_list_flattening "TS" [("headline", JValue.str "H")]).2.2 "headline"
      (by decide) (by decide) (by decide) rfl⟩

theorem normFinalValue_norm (now : String) (pd : Dict) (k : String)
    (hk : k ∈ all_fields) :
    normFinalValue (normalizeProfileData now pd) k = normFinalValue pd k := by
  have hN := normalizeProfileData_get now pd k hk
  have hc : dictContains (normalizeProfileData now pd) k = true := by
    rw [dictContains, hN]
    rfl
  have hNv : normValue (normalizeProfileData now pd) k = normFinalValue pd k := by
    unfold normValue
    rw [if_pos hc, dictGetD, hN]
    rfl
  by_cases hl : k = "all_experience" ∨ k = "all_education"
  · have hfv : normFinalValue pd k = serializeIfList (normValue pd k) := by
      unfold normFinalValue
      rw [if_pos hl]
    calc normFinalValue (normalizeProfileData now pd) k
        = serializeIfList (normValue (normalizeProfileData now pd) k) := by
          unfold normFinalValue
          rw [if_pos hl]
      _ = serializeIfList (normFinalValue pd k) := by rw [hNv]
      _ = serializeIfList (serializeIfList (normValue pd k)) := by rw [hfv]
      _ = serializeIfList (normValue pd k) := serializeIfList_idem _
      _ = normFinalValue pd k := hfv.symm
  · calc normFinalValue (normalizeProfileData now pd) k
        = normValue (normalizeProfileData now pd) k := by
          unfold normFinalValue
          rw [if_neg hl]
      _ = normFinalValue pd k := hNv

/-- Claim C8 (confirmed).  Normalization is idempotent on any raw record
that already contains every schema field (the code satisfies this even
without the hypothesis: the key sequences, the verbatim copies and the
already-serialized list fields are all fixed points). -/
theorem c8_normalize_idempotent (now : String) (pd : Dict)
    (_h : ∀ f ∈ all_fields, dictContains pd f = true) :
    normalizeProfileData now (normalizeProfileData now pd)
      = normalizeProfileData now pd := by
  apply dict_ext
  · rw [normalizeProfileData_keys, normalizeProfileData_keys]
  · rw [normalizeProfileData_keys]
    decide
  · intro k
    by_cases hk : k ∈ all_fields
    · rw [normalizeProfileData_get _ _ _ hk, normalizeProfileData_get _ _ _ hk,
          normFinalValue_norm now pd k hk]
    · rw [normalizeProfileData_get_none _ _ _ hk, normalizeProfileData_get_none _ _ _ hk]

/-- Claim C8, witness: a concrete record with every schema field. -/
theorem c8_witness :
    normalizeProfileData "TS" (normalizeProfileData "TS"
        [("name", JValue.str "A"), ("headline", JValue.str "B"),
         ("location", JValue.str "C"), ("about", JValue.str "D"),
         ("current_company", JValue.str "E"), ("current_position", JValue.str "F"),
         ("education", JValue.str "G"), ("top_skills", JValue.str "H"),
         ("profile_url", JValue.str "U"), ("connections", JValue.str "I"),
         ("scraped_at", JValue.str "T"), ("all_skills", JValue.str "J"),
         ("skills_count", JValue.num "3"), ("email", JValue.str "K"),
         ("phone", JValue.str "L"), ("website", JValue.str "M"),
         ("profile_image_url", JValue.str "N"), ("pronouns", JValue.str "O"),
         ("all_experience", JValue.list [JValue.str "e"]),
         ("all_education", JValue.list [])])
      = normalizeProfileData "TS"
        [("name", JValue.str "A"), ("headline", JValue.str "B"),
         ("location", JValue.str "C"), ("about", JValue.str "D"),
         ("current_company", JValue.str "E"), ("current_position", JValue.str "F"),
         ("education", JValue.str "G"), ("top_skills", JValue.str "H"),
         ("profile_url", JValue.str "U"), ("connections", JValue.str "I"),
         ("scraped_at", JValue.str "T"), ("all_skills", JValue.str "J"),
         ("skills_count", JValue.num "3"), ("email", JValue.str "K"),
         ("phone", JValue.str "L"), ("website", JValue.str "M"),
         ("profile_image_url", JValue.str "N"), ("pronouns", JValue.str "O"),
         ("all_experience", JValue.list [JValue.str "e"]),
         ("all_education", JValue.list [])] :=
  c8_normalize_idempotent "TS" _ (by decide)

/-- The raw object of the single-target scenario of claim C2. -/
def c2raw : Dict :=
  [("profile_url", JValue.str "https://www.linkedin.com/in/x"),
   ("name", JValue.str "A")]

/-- A worker oracle answering the scenario object on the single-profile
invocation. -/
def c2worker : WorkerCall → Option JValue
  | .single _ => some (.obj c2raw)
  | .multiTab _ _ => none

/-- The completed scenario run of claim C2: one target, credentials set,
login succeeds, scrape returns the scenario object. -/
def c2run : List Dict :=
  scrape_profiles "2026-01-01 00:00:00" "user@mail.test" "pw"
    (some (.obj [("success", JValue.bool true)])) c2worker
    ["https://www.linkedin.com/in/x"] none

/-- Claim C2, counterexample.  The claim states every schema field other
than name equals the sentinel; in the resulting record profile_url equals
the submitted URL and all_experience equals the serialized empty list
"[]", neither of which is the sentinel "N/A". -/
theorem c2_counterexample :
    (c2run.head?.bind fun r => dictGet r "profile_url")
        = some (JValue.str "https://www.linkedin.com/in/x")
    ∧ "https://www.linkedin.com/in/x" ≠ "N/A"
    ∧ (c2run.head?.bind fun r => dictGet r "all_experience")
        = some (JValue.str "[]")
    ∧ "[]" ≠ "N/A" :=
  ⟨rfl, by decide, rfl, by decide⟩

/-- Claim C2, amended.  The scenario run yields exactly one record whose
name is "A", whose profile_url is the submitted URL, whose two list
fields hold the serialized empty list "[]", and whose every other schema
field — scraped_at included, the timestamp fallback being overwritten —
is the sentinel "N/A". -/
theorem c2_amended_single_scenario :
    c2run =
      [[("profile_url", JValue.str "https://www.linkedin.com/in/x"),
        ("scraped_at", JValue.str "N/A"),
        ("name", JValue.str "A"),
        ("headline", JValue.str "N/A"),
        ("location", JValue.str "N/A"),
        ("about", JValue.str "N/A"),
        ("current_company", JValue.str "N/A"),
        ("current_position", JValue.str "N/A"),
        ("education", JValue.str "N/A"),
        ("top_skills", JValue.str "N/A"),
        ("connections", JValue.str "N/A"),
        ("all_skills", JValue.str "N/A"),
        ("skills_count", JValue.str "N/A"),
        ("email", JValue.str "N/A"),
        ("phone", JValue.str "N/A"),
        ("website", JValue.str "N/A"),
        ("profile_image_url", JValue.str "N/A"),
        ("pronouns", JValue.str "N/A"),
        ("all_experience", JValue.str "[]"),
        ("all_education", JValue.str "[]")]]
    ∧ c2run.length = 1 :=
  ⟨rfl, rfl⟩

/-- Claim C7 (confirmed).  Export writes nothing for an empty record set;
for a non-empty set the header starts with every schema column in order,
followed only by columns outside the schema. -/
theorem c7_export_header (records : List Dict) :
    (records = [] → export_to_csv records = none)
    ∧ (records ≠ [] →
        export_to_csv records = some (all_fields ++ exportExtras records)
        ∧ (exportExtras records).inter all_fields = []) := by
  constructor
  · intro h
    subst h
    rfl
  · intro h
    refine ⟨?_, exportExtras_inter records⟩
    cases records with
    | nil => exact absurd rfl h
    | cons r rs =>
      unfold export_to_csv
      rw [if_neg (by simp), exportStandard_eq, exportRemaining_eq]

/-- Claim C7, witness: the empty set and a one-record set with one
non-schema column. -/
theorem c7_witness :
    export_to_csv [] = none
    ∧ (export_to_csv [[("name", JValue.str "A"), ("oddity", JValue.str "x")]]
        = some (all_fields ++ exportExtras [[("name", JValue.str "A"), ("oddity", JValue.str "x")]])
       ∧ (exportExtras [[("name", JValue.str "A"), ("oddity", JValue.str "x")]]).inter all_fields
        = []) :=
  ⟨(c7_export_header []).1 rfl,
   (c7_export_header [[("name", JValue.str "A"), ("oddity", JValue.str "x")]]).2
     (List.cons_ne_nil _ _)⟩

/-- Claim C3, counterexample.  The claim quantifies over every maxTargets
below the list length: with maxTargets = 0 (0 < 1 = len) the code skips
truncation entirely because 0 is falsy, processing one target instead of
zero; a negative maxTargets slices from the end instead of taking that
many from the front. -/
theorem c3_counterexample :
    truncateTargets ["u"] (some 0) = ["u"]
    ∧ truncateTargets ["a", "b"] (some (-1)) = ["a"] :=
  ⟨rfl, rfl⟩

/-- Claim C3, amended.  For every positive maxTargets below the list
length, the Init phase keeps exactly the first maxTargets submitted
targets, which is the list the scraping phase then processes. -/
theorem c3_amended_truncation (targets : List String) (n : Int)
    (h0 : 0 < n) (hlt : n < targets.length) :
    truncateTargets targets (some n) = targets.take n.toNat
    ∧ (truncateTargets targets (some n)).length = n.toNat := by
  have hne : n ≠ 0 := by omega
  have hnn : 0 ≤ n := le_of_lt h0
  have key : truncateTargets targets (some n) = targets.take n.toNat := by
    show (if n = 0 then targets else pySliceTo targets n) = targets.take n.toNat
    rw [if_neg hne]
    unfold pySliceTo
    rw [if_pos hnn]
  refine ⟨key, ?_⟩
  rw [key, List.length_take]
  omega

/-- Claim C3, amended, witness at maxTargets 2 of 3. -/
theorem c3_amended_witness :
    truncateTargets ["a", "b", "c"] (some 2) = (["a", "b", "c"] : List String).take (Int.toNat 2)
    ∧ (truncateTargets ["a", "b", "c"] (some 2)).length = Int.toNat 2 :=
  c3_amended_truncation ["a", "b", "c"] 2 (by decide) (by decide)

/-- A worker oracle whose single-profile invocation answers a row-level
error object, for the C1 counterexample. -/
def c1worker : WorkerCall → Option JValue
  | .single _ => some (.obj [("profile_url", JValue.str "u"), ("error", JValue.str "blocked")])
  | .multiTab _ _ => none

/-- Claim C1, counterexample.  A completed run with a valid session over
one processed target whose worker row is error-marked accumulates zero
records, not one: the single-target path drops error-marked rows instead
of normalizing them (only the multi-tab path keeps them). -/
theorem c1_counterexample :
    scrape_profiles "TS" "user@mail.test" "pw"
        (some (.obj [("success", JValue.bool true)])) c1worker ["u"] none = []
    ∧ (truncateTargets ["u"] none).length = 1 :=
  ⟨rfl, rfl⟩

/-- Claim C1, amended.  With a valid session, the record count equals the
processed target count exactly when the worker result matches the path
taken: on the single-target path a truthy object without an error key
(an error-marked row yields no record there), and on the multi-tab path a
JSON array holding exactly one object per processed target — in that
array error-marked rows do count as records. -/
theorem c1_amended_record_count (now email password : String)
    (loginResult : Option JValue) (worker : WorkerCall → Option JValue)
    (urls : List String) (maxp : Option Int)
    (hlogin : ensure_login email password loginResult = true)
    (hcase :
      (∃ u o, truncateTargets urls maxp = [u]
          ∧ worker (.single u) = some (.obj o)
          ∧ o ≠ [] ∧ dictContains o "error" = false)
      ∨ ((truncateTargets urls maxp).length ≠ 1
          ∧ ∃ items,
              worker (.multiTab (truncateTargets urls maxp)
                  (min 3 (truncateTargets urls maxp).length))
                = some (.list items)
              ∧ items.length = (truncateTargets urls maxp).length
              ∧ ∀ it ∈ items, ∃ o, it = JValue.obj o)) :
    (scrape_profiles now email password loginResult worker urls maxp).length
      = (truncateTargets urls maxp).length := by
  rcases hcase with ⟨u, o, hTu, hw, hne, herr⟩ | ⟨hlen, items, hw, hcount, hobj⟩
  · have htr : jTruthy (.obj o) = true := by
      cases o with
      | nil => exact absurd rfl hne
      | cons a as => rfl
    unfold scrape_profiles
    rw [if_pos hlogin, hTu]
    show (scrape_single_profile now (worker (.single u)) []).2.length = [u].length
    rw [hw]
    simp [scrape_single_profile, htr, herr]
  · unfold scrape_profiles
    rw [if_pos hlogin]
    rcases hT : truncateTargets urls maxp with _ | ⟨t1, ts⟩
    · rw [hT] at hcount
      simp [scrape_profiles_multi_tab]
    · cases ts with
      | nil =>
        rw [hT] at hlen
        simp at hlen
      | cons t2 ts2 =>
        rw [hT] at hw hcount
        rw [hw]
        unfold scrape_profiles_multi_tab
        have hitems : items ≠ [] := by
          intro hnil
          rw [hnil] at hcount
          simp at hcount
        have htr : jTruthy (.list items) = true := by
          cases items with
          | nil => exact absurd rfl hitems
          | cons a as => rfl
        rw [if_neg (by simp)]
        simp only [htr, if_true]
        rw [foldl_multiTabStep_length now items [] hobj]
        simpa using hcount

/-- Claim C1, amended, witness: a two-target multi-tab run whose worker
array has one object per target, one of them error-marked; both are
counted. -/
def c1witnessWorker : WorkerCall → Option JValue
  | .single _ => none
  | .multiTab _ _ =>
      some (.list [.obj [("name", JValue.str "A")], .obj [("error", JValue.str "x")]])

theorem c1_amended_witness :
    (scrape_profiles "TS" "user@mail.test" "pw"
        (some (.obj [("success", JValue.bool true)])) c1witnessWorker
        ["u1", "u2"] none).length
      = (truncateTargets ["u1", "u2"] none).length :=
  c1_amended_record_count "TS" "user@mail.test" "pw"
    (some (.obj [("success", JValue.bool true)])) c1witnessWorker ["u1", "u2"] none rfl
    (Or.inr ⟨by decide,
      [.obj [("name", JValue.str "A")], .obj [("error", JValue.str "x")]], rfl, rfl,
      by
        intro it hit
        rcases List.mem_cons.mp hit with rfl | hit2
        · exact ⟨_, rfl⟩
        · rcases List.mem_cons.mp hit2 with rfl | hit3
          · exact ⟨_, rfl⟩
          · cases hit3⟩)

theorem loadStep_eq (urls : List String) (line : String) :
    loadStep urls line
      = if keepUrl (pyStripStr line) then urls ++ [pyStripStr line] else urls := by
  unfold loadStep keepUrl
  by_cases ha : pyStripStr line = ""
  · simp [ha]
  · by_cases hbb : listStartsWith (pyStripStr line).data ['#'] = true
    · simp [ha, hbb]
    · by_cases hc : strContains (urlparseNetloc (pyStripStr line)) "linkedin.com" = true
      · simp [ha, hbb, hc]
      · simp [ha, hbb, hc]

theorem load_profile_urls_foldl (fileLines : List String) (acc : List String) :
    fileLines.foldl loadStep acc
      = acc ++ (fileLines.map pyStripStr).filter keepUrl := by
  induction fileLines generalizing acc with
  | nil => simp
  | cons l ls ih =>
    simp only [List.foldl_cons, List.map_cons, List.filter_cons]
    rw [loadStep_eq]
    by_cases hk : keepUrl (pyStripStr l) = true
    · rw [if_pos hk, hk, ih]
      simp
    · have hkf : keepUrl (pyStripStr l) = false := by simpa using hk
      rw [if_neg hk, hkf, ih]
      simp

/-- Claim C5, counterexample.  The claim states a line is kept if and
only if its URL parses with a host belonging to the expected LinkedIn
domain.  The code tests substring containment of linkedin.com in the
netloc, so a URL whose host is fakelinkedin.com — not linkedin.com nor
one of its subdomains — is kept. -/
theorem c5_counterexample :
    load_profile_urls ["https://fakelinkedin.com/in/x"]
        = ["https://fakelinkedin.com/in/x"]
    ∧ hostInLinkedinDomain (urlparseNetloc "https://fakelinkedin.com/in/x") = false :=
  ⟨rfl, rfl⟩

/-- Claim C5, amended.  The loader keeps exactly the stripped lines that
are non-blank, do not start with a comment mark, and whose parsed netloc
contains linkedin.com as a substring (an over-broad test also accepting
hosts such as fakelinkedin.com); dropping is per-line and never fatal.
The spec scenario holds: two valid LinkedIn URLs plus one non-LinkedIn
URL load as exactly those two targets. -/
theorem c5_amended_loader :
    (∀ fileLines : List String,
        load_profile_urls fileLines = (fileLines.map pyStripStr).filter keepUrl)
    ∧ load_profile_urls
        ["https://www.linkedin.com/in/a", "https://www.google.com/x",
         "https://linkedin.com/in/b"]
      = ["https://www.linkedin.com/in/a", "https://linkedin.com/in/b"] := by
  constructor
  · intro fileLines
    unfold load_profile_urls
    rw [load_profile_urls_foldl]
    rfl
  · rfl

/-- Claim C4 (confirmed).  On zero exit: stdout made of log lines
followed by one trailing line holding a JSON array extracts exactly that
array (the backwards scan over the last five lines tries the trailing
line first); stdout that is pure non-JSON text — no object or array
opener anywhere and unparsable as a whole — extracts nothing.  The
embedding is a total function, mirroring that every parse failure is
caught and converted to the absent result rather than raised. -/
theorem c4_bridge_extraction :
    (∀ (stdout : List Char) (logs : List (List Char)) (lastLine : List Char)
        (arr : List JValue),
        splitOnChar '\n' (pyStrip stdout) = logs ++ [lastLine] →
        listStartsWith (pyStrip lastLine) ['['] = true →
        jsonLoads (pyStrip lastLine) = some (.list arr) →
        run_node_script 0 stdout = some (.list arr))
    ∧ (∀ stdout : List Char,
        '[' ∉ pyStrip stdout → '\x7b' ∉ pyStrip stdout →
        jsonLoads (pyStrip stdout) = none →
        run_node_script 0 stdout = none) := by
  constructor
  · intro stdout logs lastLine arr hsplit hhead hparse
    have hllne : pyStrip lastLine ≠ [] := by
      intro h0
      rw [h0] at hhead
      simp [listStartsWith] at hhead
    have hne : pyStrip stdout ≠ [] := by
      intro h0
      rw [h0] at hsplit
      have h1 : ([[]] : List (List Char)) = logs ++ [lastLine] := hsplit
      cases logs with
      | nil =>
        have h2 : lastLine = [] := by simpa using h1.symm
        exact hllne (by rw [h2]; rfl)
      | cons g gs =>
        have h2 := congrArg List.length h1
        simp at h2
    have hempty : (pyStrip lastLine).isEmpty = false := by
      cases hl : pyStrip lastLine with
      | nil => exact absurd hl hllne
      | cons a as => rfl
    have hfind : findJsonLine ((splitOnChar '\n' (pyStrip stdout)).reverse.take 5)
        = some (.list arr) := by
      rw [hsplit, List.reverse_append, List.reverse_singleton, List.singleton_append,
          List.take_succ_cons]
      simp only [findJsonLine, hempty, hhead, Bool.not_false, Bool.or_true, Bool.and_self,
          if_true, hparse]
    unfold run_node_script
    rw [if_pos rfl]
    unfold extractJson
    have hcond : ¬ ((pyStrip stdout).isEmpty = true) := by
      intro h0
      exact hne (List.isEmpty_iff.mp h0)
    rw [if_neg hcond, hfind]
  · intro stdout hbr hbc hload
    unfold run_node_script
    rw [if_pos rfl]
    unfold extractJson
    by_cases hemp : (pyStrip stdout).isEmpty = true
    · rw [if_pos hemp]
    · rw [if_neg hemp]
      have hfind : findJsonLine ((splitOnChar '\n' (pyStrip stdout)).reverse.take 5)
          = none := by
        apply findJsonLine_none
        intro line hline
        have hline2 : line ∈ splitOnChar '\n' (pyStrip stdout) :=
          List.mem_reverse.mp (List.take_subset 5 _ hline)
        constructor
        · intro hx
          exact hbr (splitOnChar_mem '\n' (pyStrip stdout) line '[' hline2 hx)
        · intro hx
          exact hbc (splitOnChar_mem '\n' (pyStrip stdout) line '\x7b' hline2 hx)
      rw [hfind, hload, regexJsonSpan_none (pyStrip stdout) hbr hbc]
      rfl

/-- Claim C4, witness: a concrete mixed stdout and a concrete pure-text
stdout. -/
theorem c4_witness :
    run_node_script 0 "log line one\nlog two\n[\"ok\", 1]".toList
        = some (JValue.list [JValue.str "ok", JValue.num "1"])
    ∧ run_node_script 0 "Error: no result at all".toList = none := by
  constructor
  · exact c4_bridge_extraction.1 "log line one\nlog two\n[\"ok\", 1]".toList
      ["log line one".toList, "log two".toList] "[\"ok\", 1]".toList
      [JValue.str "ok", JValue.num "1"] (by decide) (by decide) rfl
  · exact c4_bridge_extraction.2 "Error: no result at all".toList
      (by decide) (by decide) rfl

end AeroLead
